import Mathlib

/-!
Key-chord binding and dispatch of the launcher (`internal/ui/keybinds.go`)

A shallow embedding of the chord parser inside `keybinds.bind`, of the two
binding tables with `keybinds.execute`, of `keybinds.validate` and
`keybinds.validateTriggerLabels`, of `parseKeybinds`, and of
`toggleExactMatch`.

Modelling conventions.

* A Go `string` is a Lean `String`, i.e. valid UTF-8 text.  Go's `len(v)` is
  the number of bytes of the UTF-8 encoding (`String.utf8ByteSize`), and
  `v[0]` is the first byte of that encoding.
* `gdk.ModifierType` is an unsigned bit mask (`Nat`, `|` is `|||`); key codes
  are Go `int`s (`Int`).
* A Go `map[K]V` is a function `K → Option V`; `none` means "no entry".
* An action (`func() bool`) is a handle of an arbitrary type `α`.  Calling it
  is done by `run : α → σ → Bool × σ`, where `σ` is the session state the
  action reads and writes.  `execute` additionally records the handles it
  called, in order, so that "called exactly once" can be stated.
* `slog.Error` appends a record to a log; `validate` returns the records it
  emits.
* A run-time panic (index out of range) is the result `none`.
-/

namespace Walker

/-! ## GDK constants used by the tables

The constants come from the `gdk` package of the toolkit binding; they have
the values of GDK 4.  The properties below use nothing about them except that
the three modifier masks are not zero. -/

/-- The type `gdk.ModifierType`, an unsigned bit mask. -/
abbrev ModifierType := Nat

namespace gdk

def NoModifierMask : ModifierType := 0
def ShiftMask : ModifierType := 1
def ControlMask : ModifierType := 4
def AltMask : ModifierType := 8

def KEY_BackSpace : Int := 0xff08
def KEY_Tab : Int := 0xff09
def KEY_Escape : Int := 0xff1b
def KEY_Return : Int := 0xff0d
def KEY_Down : Int := 0xff54
def KEY_Up : Int := 0xff52
def KEY_ISO_Left_Tab : Int := 0xfe20
def KEY_Shift_L : Int := 0xffe1
def KEY_Shift_R : Int := 0xffe2
def KEY_Control_L : Int := 0xffe3
def KEY_Control_R : Int := 0xffe4
def KEY_Shift_Lock : Int := 0xffe6
def KEY_Alt_L : Int := 0xffe9
def KEY_Alt_R : Int := 0xffea

end gdk

/-! ## Go string primitives -/

/-- Go `len(v)` for a string: the number of bytes. -/
def len (v : String) : Nat := v.utf8ByteSize

/-- Go `v[0]` for a string: the first byte of its UTF-8 encoding.  Indexing an
empty string panics in Go; the tokens produced by `Fields` are never empty
(`Fields_ne_empty`), so the default `0` is never taken by `bind`. -/
def byte0 (v : String) : Nat :=
  match v.data with
  | [] => 0
  | c :: _ =>
    match String.utf8EncodeChar c with
    | [] => 0
    | b :: _ => b.toNat

/-- Go `unicode.IsSpace`: the code points with the Unicode White_Space
property. -/
def isSpace (c : Char) : Bool :=
  let n := c.toNat
  n == 0x09 || n == 0x0A || n == 0x0B || n == 0x0C || n == 0x0D || n == 0x20 ||
  n == 0x85 || n == 0xA0 || n == 0x1680 || (0x2000 ≤ n && n ≤ 0x200A) ||
  n == 0x2028 || n == 0x2029 || n == 0x202F || n == 0x205F || n == 0x3000

/-- The scanning loop of `strings.Fields`: `cur` is the field being read, in
reverse; a white-space character closes a non-empty field. -/
def fieldsGo : List Char → List Char → List String
  | cur, [] => if cur = [] then [] else [String.mk cur.reverse]
  | cur, c :: cs =>
    if isSpace c then
      if cur = [] then fieldsGo [] cs else String.mk cur.reverse :: fieldsGo [] cs
    else fieldsGo (c :: cur) cs

/-- Go `strings.Fields`: the maximal runs of non-white-space characters. -/
def Fields (s : String) : List String := fieldsGo [] s.data

/-! ## The vocabularies -/

/-- The `modifiersInt` table: side-specific modifier name to key symbol. -/
def modifiersInt (v : String) : Option Int :=
  if v = "lctrl" then some gdk.KEY_Control_L
  else if v = "rctrl" then some gdk.KEY_Control_R
  else if v = "lalt" then some gdk.KEY_Alt_L
  else if v = "ralt" then some gdk.KEY_Alt_R
  else if v = "lshift" then some gdk.KEY_Shift_L
  else if v = "rshift" then some gdk.KEY_Shift_R
  else if v = "shiftlock" then some gdk.KEY_Shift_Lock
  else none

/-- The `modifiers` table: modifier name to combined modifier flag. -/
def modifiers (v : String) : Option ModifierType :=
  if v = "ctrl" then some gdk.ControlMask
  else if v = "lctrl" then some gdk.ControlMask
  else if v = "rctrl" then some gdk.ControlMask
  else if v = "alt" then some gdk.AltMask
  else if v = "lalt" then some gdk.AltMask
  else if v = "ralt" then some gdk.AltMask
  else if v = "lshift" then some gdk.ShiftMask
  else if v = "rshift" then some gdk.ShiftMask
  else if v = "shift" then some gdk.ShiftMask
  else none

/-- The `specialKeys` table: special-key name to key code. -/
def specialKeys (v : String) : Option Int :=
  if v = "backspace" then some gdk.KEY_BackSpace
  else if v = "tab" then some gdk.KEY_Tab
  else if v = "esc" then some gdk.KEY_Escape
  else if v = "enter" then some gdk.KEY_Return
  else if v = "down" then some gdk.KEY_Down
  else if v = "up" then some gdk.KEY_Up
  else if v = "stab" then some gdk.KEY_ISO_Left_Tab
  else none

/-! ## The binding tables -/

/-- The type `keybinds`: `map[int]map[gdk.ModifierType]func() bool`. -/
abbrev keybinds (α : Type) := Int → Option (ModifierType → Option α)

/-- The table without entries, `make(keybinds)`. -/
def keybinds.empty {α : Type} : keybinds α := fun _ => none

/-- The two-level read `t[key][modifier]` with its `ok` flag: a missing outer
key yields the nil inner map, in which nothing is found. -/
def keybinds.get {α : Type} (t : keybinds α) (key : Int) (modifier : ModifierType) :
    Option α :=
  match t key with
  | none => none
  | some inner => inner modifier

/-- Loop state of `bind`: the modifier flags collected so far (`m`) and the key
code (`key`). -/
structure Scan where
  m : List ModifierType
  key : Int
deriving DecidableEq

/-- One iteration of the `for _, v := range fields` loop of `bind`, over
arbitrary tables `mods` and `specials`. -/
def scanStep (mods : String → Option ModifierType) (specials : String → Option Int)
    (st : Scan) (v : String) : Scan :=
  if len v > 1 then
    let st1 : Scan :=
      match mods v with
      | some val => { st with m := st.m ++ [val] }
      | none => st
    match specials v with
    | some val => { st1 with key := val }
    | none => st1
  else
    { st with key := (byte0 v : Int) }

/-- The `switch len(m)` of `bind`. -/
def combine (m : List ModifierType) : ModifierType :=
  match m with
  | [a] => a
  | [a, b] => a ||| b
  | [a, b, c] => a ||| b ||| c
  | _ => gdk.NoModifierMask

/-- The parse step of `bind` over arbitrary tables: split, scan, combine. -/
def parseWith (mods : String → Option ModifierType) (specials : String → Option Int)
    (val : String) : Int × ModifierType :=
  let st := (Fields val).foldl (scanStep mods specials) { m := [], key := 0 }
  (st.key, combine st.m)

/-- The parse step of `bind` with the package tables `modifiers` and
`specialKeys`. -/
def parse (val : String) : Int × ModifierType := parseWith modifiers specialKeys val

/-- The store `binds[key][modifier] = fn` of `bind`, creating the inner map
when the key has none. -/
def keybinds.set {α : Type} (binds : keybinds α) (key : Int) (modifier : ModifierType)
    (fn : α) : keybinds α :=
  let binds1 : keybinds α :=
    match binds key with
    | some _ => binds
    | none => fun k => if k = key then some (fun _ => none) else binds k
  fun k =>
    if k = key then
      match binds1 key with
      | some inner => some (fun md => if md = modifier then some fn else inner md)
      | none => none
    else binds1 k

/-- The method `keybinds.bind(binds, val, fn)`: parse `val`, then store `fn` at
the parsed pair of `binds`. -/
def bind {α : Type} (binds : keybinds α) (val : String) (fn : α) : keybinds α :=
  let p := parse val
  binds.set p.1 p.2 fn

/-! ## Dispatch -/

/-- The package state read by `execute`: the tables `binds` and `aibinds` and
the flag `isAi`. -/
structure State (α : Type) where
  binds : keybinds α
  aibinds : keybinds α
  isAi : Bool

/-- What a call of `execute` does: the actions it called, in order, the value it
returned and the session state afterwards. -/
structure Outcome (α σ : Type) where
  calls : List α
  ret : Bool
  session : σ
deriving DecidableEq

/-- The statement `return fn()`. -/
def callAction {α σ : Type} (run : α → σ → Bool × σ) (fn : α) (w : σ) : Outcome α σ :=
  { calls := [fn], ret := (run fn w).1, session := (run fn w).2 }

/-- The tail of `execute` after the `if isAi` block: the lookup in `binds` and
the final `return false`. -/
def executePrimary {α σ : Type} (run : α → σ → Bool × σ) (st : State α) (key : Int)
    (modifier : ModifierType) (w : σ) : Outcome α σ :=
  match st.binds.get key modifier with
  | some fn => callAction run fn w
  | none => { calls := [], ret := false, session := w }

/-- The method `keybinds.execute(key, modifier)`. -/
def execute {α σ : Type} (run : α → σ → Bool × σ) (st : State α) (key : Int)
    (modifier : ModifierType) (w : σ) : Outcome α σ :=
  if st.isAi then
    match st.aibinds.get key modifier with
    | some fn => callAction run fn w
    | none => executePrimary run st key modifier w
  else executePrimary run st key modifier w

/-! ## Validation -/

/-- One record of the error log: the message and the arguments of a
`slog.Error` call. -/
structure LogRecord where
  msg : String
  args : List String
deriving DecidableEq

/-- The call `slog.Error(msg, args...)`, as the record it emits. -/
def slogError (msg : String) (args : List String) : LogRecord := { msg := msg, args := args }

/-- The method `keybinds.validate(bind)`: the error records it logs, in order. -/
def validate (bind : String) : List LogRecord :=
  (Fields bind).foldl
    (fun log v =>
      if len v > 1 then
        if (modifiers v).isNone && (specialKeys v).isNone then
          log ++ [slogError "invalid keybind" [bind, "key", v]]
        else log
      else log)
    []

/-- The method `keybinds.validateTriggerLabels(bind)`: the error records it
logs, or `none` when `fields[0]` is out of range (the spec has no token). -/
def validateTriggerLabels (bind : String) : Option (List LogRecord) :=
  match Fields bind with
  | [] => none
  | f0 :: _ =>
    if (modifiersInt f0).isNone || len f0 == 1 then
      some [slogError "invalid trigger_label keybind" [bind]]
    else some []

/-- One `binds.validate(x); binds.bind(table, x, fn)` pair of `parseKeybinds`:
the log grows by what `validate` reports and the table is bound regardless. -/
def validateBind {α : Type} (st : List LogRecord × keybinds α) (val : String) (fn : α) :
    List LogRecord × keybinds α :=
  (st.1 ++ validate val, bind st.2 val fn)

/-! ## Setup -/

/-- The built-in actions that `parseKeybinds` binds; `activate` stands for the
closures `func() bool { return activate(keepOpen, isAlt) }`. -/
inductive Action where
  | acceptTypeahead
  | quitKeybind
  | selectNext
  | selectPrev
  | deleteFromHistory
  | resume
  | toggleExactMatch
  | activate (keepOpen : Bool) (isAlt : Bool)
  | aiClearSession
  | aiCopyLast
  | aiResume
  | aiExecuteLast
deriving DecidableEq

/-- Modelled from the spec: the type of `cfg.Keys.ActivationModifiers` is
declared outside the sources; it is the pair of the keep-open modifier and the
alternate-action modifier, with the field names `parseKeybinds` reads. -/
structure ActivationModifiers where
  KeepOpen : String
  Alternate : String

/-- Modelled from the spec: the type of `cfg.Keys.Ai` is declared outside the
sources; it holds the chord specs of the assistant-mode actions, with the field
names `parseKeybinds` reads. -/
structure AiKeys where
  ClearSession : String
  CopyLastResponse : String
  ResumeSession : String
  RunLastResponse : String

/-- Modelled from the spec: the type of `cfg.Keys` is declared outside the
sources; it maps each logical action name to its chord spec and holds the
activation modifiers and the trigger-label spec, with the field names
`parseKeybinds` reads. -/
structure Keys where
  AcceptTypeahead : String
  Close : String
  Next : String
  Prev : String
  RemoveFromHistory : String
  ResumeQuery : String
  ToggleExactSearch : String
  ActivationModifiers : ActivationModifiers
  TriggerLabels : String
  Ai : AiKeys

/-- The package variables that `parseKeybinds` assigns, and the error log. -/
structure Setup where
  binds : keybinds Action
  aibinds : keybinds Action
  labelTrigger : Int
  keepOpenModifier : ModifierType
  labelModifier : ModifierType
  activateAltModifier : ModifierType
  log : List LogRecord

/-- The function `parseKeybinds()`, reading the configuration `cfg.Keys`; `none`
when it panics on `strings.Fields(cfg.Keys.TriggerLabels)[0]`. -/
def parseKeybinds (cfg : Keys) : Option Setup := do
  let binds : keybinds Action := keybinds.empty
  let aibinds : keybinds Action := keybinds.empty
  let log := validate cfg.AcceptTypeahead
  let binds := bind binds cfg.AcceptTypeahead Action.acceptTypeahead
  let log := log ++ validate cfg.Close
  let binds := bind binds cfg.Close Action.quitKeybind
  let log := log ++ validate cfg.Next
  let binds := bind binds cfg.Next Action.selectNext
  let log := log ++ validate cfg.Prev
  let binds := bind binds cfg.Prev Action.selectPrev
  let log := log ++ validate cfg.RemoveFromHistory
  let binds := bind binds cfg.RemoveFromHistory Action.deleteFromHistory
  let log := log ++ validate cfg.ResumeQuery
  let binds := bind binds cfg.ResumeQuery Action.resume
  let log := log ++ validate cfg.ToggleExactSearch
  let binds := bind binds cfg.ToggleExactSearch Action.toggleExactMatch
  let binds := bind binds "enter" (Action.activate false false)
  let binds := bind binds (cfg.ActivationModifiers.KeepOpen ++ " " ++ "enter")
    (Action.activate true false)
  let binds := bind binds (cfg.ActivationModifiers.Alternate ++ " " ++ "enter")
    (Action.activate false true)
  let keepOpenModifier := (modifiers cfg.ActivationModifiers.KeepOpen).getD 0
  let activateAltModifier := (modifiers cfg.ActivationModifiers.Alternate).getD 0
  let log := log ++ (← validateTriggerLabels cfg.TriggerLabels)
  let labelTrigger := (modifiersInt (← (Fields cfg.TriggerLabels).head?)).getD 0
  let labelModifier := (modifiers (← (Fields cfg.TriggerLabels).head?)).getD 0
  let log := log ++ validate cfg.Ai.ClearSession
  let aibinds := bind aibinds cfg.Ai.ClearSession Action.aiClearSession
  let log := log ++ validate cfg.Ai.CopyLastResponse
  let aibinds := bind aibinds cfg.Ai.CopyLastResponse Action.aiCopyLast
  let log := log ++ validate cfg.Ai.ResumeSession
  let aibinds := bind aibinds cfg.Ai.ResumeSession Action.aiResume
  let log := log ++ validate cfg.Ai.RunLastResponse
  let aibinds := bind aibinds cfg.Ai.RunLastResponse Action.aiExecuteLast
  pure
    { binds := binds
      aibinds := aibinds
      labelTrigger := labelTrigger
      keepOpenModifier := keepOpenModifier
      labelModifier := labelModifier
      activateAltModifier := activateAltModifier
      log := log }

/-- A sample configuration, used for concrete examples. -/
def exampleKeys : Keys :=
  { AcceptTypeahead := "tab"
    Close := "esc"
    Next := "down"
    Prev := "up"
    RemoveFromHistory := "shift backspace"
    ResumeQuery := "ctrl r"
    ToggleExactSearch := "ctrl m"
    ActivationModifiers := { KeepOpen := "shift", Alternate := "alt" }
    TriggerLabels := "lalt"
    Ai :=
      { ClearSession := "ctrl x"
        CopyLastResponse := "ctrl c"
        ResumeSession := "ctrl r"
        RunLastResponse := "ctrl e" } }

/-! ## `toggleExactMatch` -/

/-- The text entry `elements.input`: its text and the cursor position last
requested (`-1` asks for the end of the text). -/
structure Input where
  text : String
  position : Int
deriving DecidableEq

/-- Go `strings.HasPrefix(text, "\x27")`. -/
def hasQuotePrefix (text : String) : Bool :=
  match text.data with
  | c :: _ => c == Char.ofNat 39
  | [] => false

/-- Go `strings.TrimPrefix(text, "\x27")`. -/
def trimQuotePrefix (text : String) : String :=
  match text.data with
  | c :: rest => if c == Char.ofNat 39 then String.mk rest else text
  | [] => text

/-- The action `toggleExactMatch()` on the text entry: the new entry and the
returned flag. -/
def toggleExactMatch (input : Input) : Input × Bool :=
  let text := input.text
  let input1 : Input :=
    if hasQuotePrefix text then { input with text := trimQuotePrefix text }
    else { input with text := String.mk (Char.ofNat 39 :: text.data) }
  ({ input1 with position := -1 }, true)

/-! ## The reference dispatch of the specification -/

/-- The entry of a table at exactly the pair `(key, modifier)`, if any. -/
def entryAt {α : Type} (t : keybinds α) (key : Int) (modifier : ModifierType) : Option α :=
  (t key).bind (fun inner => inner modifier)

/-- Reference dispatch, written after the specification: when the secondary
context is active and the secondary table has an entry at exactly the pair,
run it and return its result (override); otherwise, when the primary table has
an entry at exactly the pair, run it and return its result (fallthrough);
otherwise return false and call nothing. -/
def dispatchRef {α σ : Type} (run : α → σ → Bool × σ) (primary secondary : keybinds α)
    (secondaryActive : Bool) (key : Int) (modifier : ModifierType) (w : σ) : Outcome α σ :=
  match (if secondaryActive then entryAt secondary key modifier else none) with
  | some a => { calls := [a], ret := (run a w).1, session := (run a w).2 }
  | none =>
    match entryAt primary key modifier with
    | some a => { calls := [a], ret := (run a w).1, session := (run a w).2 }
    | none => { calls := [], ret := false, session := w }

/-! ## Notions used to state the properties -/

/-- The flag a token contributes to `m` in the loop of `bind`, if any. -/
def modOf (mods : String → Option ModifierType) (v : String) : Option ModifierType :=
  if len v > 1 then mods v else none

/-- The key code a token assigns to `key` in the loop of `bind`, if any. -/
def keyOf (specials : String → Option Int) (v : String) : Option Int :=
  if len v > 1 then specials v else some (byte0 v : Int)

/-- The value of a variable after a run of assignments: the last one assigned,
or the initial value when there is none. -/
def lastAssigned (init : Int) (ks : List Int) : Int := ks.foldl (fun _ k => k) init

/-- The bitwise OR of a list of modifier flags. -/
def orAll (m : List ModifierType) : ModifierType := m.foldr (fun a b => a ||| b) 0

/-- The flags of the modifier tokens of a chord spec (the tokens found in the
modifier-name table), in the order of the tokens. -/
def modifierFlags (s : String) : List ModifierType := (Fields s).filterMap modifiers

/-- A modifier token: a token found in the modifier-name table. -/
def isModifierToken (v : String) : Bool := (modifiers v).isSome

/-- A key token: a one-byte token (a literal key) or a special-key name. -/
def isKeyToken (v : String) : Bool := decide (len v ≤ 1) || (specialKeys v).isSome

/-- A valid chord spec: every token longer than one byte is a modifier name or
a special-key name, there is at most one key token and there are at most three
modifier tokens. -/
def ValidChord (s : String) : Prop :=
  (∀ v ∈ Fields s, len v > 1 → (modifiers v).isSome = true ∨ (specialKeys v).isSome = true) ∧
  (Fields s).countP isKeyToken ≤ 1 ∧
  (Fields s).countP isModifierToken ≤ 3

instance (s : String) : Decidable (ValidChord s) := by
  unfold ValidChord
  infer_instance

/-- The tokens `validate` complains about: longer than one byte and in neither
vocabulary. -/
def isUnknownToken (v : String) : Bool :=
  decide (len v > 1) && (modifiers v).isNone && (specialKeys v).isNone

/-- A text that begins with two single quotes. -/
def startsWithTwoQuotes (text : String) : Bool :=
  match text.data with
  | a :: b :: _ => a == Char.ofNat 39 && b == Char.ofNat 39
  | _ => false

/-! ## Facts about the tables -/

theorem get_empty {α : Type} (key : Int) (modifier : ModifierType) :
    (keybinds.empty : keybinds α).get key modifier = none := rfl

theorem get_eq_entryAt {α : Type} (t : keybinds α) (key : Int) (modifier : ModifierType) :
    t.get key modifier = entryAt t key modifier := by
  unfold keybinds.get entryAt
  cases t key <;> rfl

/-- Reading a table after a store: the stored pair yields the stored action,
every other pair yields what it did before. -/
theorem get_set {α : Type} (t : keybinds α) (key : Int) (modifier : ModifierType) (fn : α)
    (k : Int) (md : ModifierType) :
    (t.set key modifier fn).get k md =
      if k = key ∧ md = modifier then some fn else t.get k md := by
  unfold keybinds.set keybinds.get
  by_cases hk : k = key
  · subst hk
    cases ht : t k with
    | none => by_cases hm : md = modifier <;> simp [ht, hm]
    | some inner => by_cases hm : md = modifier <;> simp [ht, hm]
  · cases ht : t key with
    | none => simp [ht, hk]
    | some inner => simp [ht, hk]

theorem get_bind {α : Type} (t : keybinds α) (val : String) (fn : α)
    (k : Int) (md : ModifierType) :
    (bind t val fn).get k md =
      if k = (parse val).1 ∧ md = (parse val).2 then some fn else t.get k md := by
  unfold bind
  exact get_set t _ _ fn k md

theorem get_bind_self {α : Type} (t : keybinds α) (val : String) (fn : α) :
    (bind t val fn).get (parse val).1 (parse val).2 = some fn := by
  rw [get_bind]; simp

theorem execute_eq_dispatchRef {α σ : Type} (run : α → σ → Bool × σ) (st : State α)
    (key : Int) (modifier : ModifierType) (w : σ) :
    execute run st key modifier w =
      dispatchRef run st.binds st.aibinds st.isAi key modifier w := by
  unfold execute executePrimary dispatchRef callAction
  rw [get_eq_entryAt, get_eq_entryAt]
  cases st.isAi with
  | false => cases entryAt st.binds key modifier <;> rfl
  | true =>
    cases entryAt st.aibinds key modifier with
    | some a => rfl
    | none => cases entryAt st.binds key modifier <;> rfl

/-! ## Facts about `Fields` -/

theorem fieldsGo_ne_empty (cs cur : List Char) :
    ∀ v ∈ fieldsGo cur cs, v.data ≠ [] := by
  induction cs generalizing cur with
  | nil =>
    intro v hv
    unfold fieldsGo at hv
    by_cases hc : cur = []
    · simp [hc] at hv
    · simp [hc] at hv
      subst hv
      simpa using hc
  | cons c cs ih =>
    intro v hv
    unfold fieldsGo at hv
    by_cases hs : isSpace c = true
    · by_cases hc : cur = []
      · simp [hs, hc] at hv
        exact ih [] v hv
      · simp [hs, hc] at hv
        rcases hv with hv | hv
        · subst hv
          simpa using hc
        · exact ih [] v hv
    · simp [hs] at hv
      exact ih (c :: cur) v hv

/-- No field of `strings.Fields` is the empty string, so `v[0]` in `bind` never
indexes out of range. -/
theorem Fields_ne_empty (s : String) : ∀ v ∈ Fields s, v.data ≠ [] :=
  fieldsGo_ne_empty s.data []

theorem Fields_singleton (c : Char) (hc : isSpace c = false) :
    Fields (String.singleton c) = [String.singleton c] := by
  have hd : (String.singleton c).data = [c] := rfl
  unfold Fields
  rw [hd]
  simp [fieldsGo, hc]
  rfl

theorem len_singleton (c : Char) : len (String.singleton c) = c.utf8Size := by
  have hd : String.singleton c = String.mk [c] := rfl
  rw [hd]
  simp [len, String.utf8ByteSize, String.utf8ByteSize.go]

theorem utf8Size_eq_one_iff (c : Char) : c.utf8Size = 1 ↔ c.toNat < 128 := by
  have key : (c.val ≤ UInt32.ofNatCore 127 (by decide)) ↔ c.toNat < 128 := by
    show c.val.toNat ≤ 127 ↔ c.val.toNat < 128
    omega
  unfold Char.utf8Size
  constructor
  · intro h
    by_contra hlt
    have h1 := mt key.mp hlt
    rw [if_neg h1] at h
    split_ifs at h <;> omega
  · intro h
    rw [if_pos (key.mpr h)]

theorem utf8Size_pos (c : Char) : 0 < c.utf8Size := by
  unfold Char.utf8Size
  dsimp only
  split_ifs <;> omega

/-- The first byte of a one-character string whose character is below 128 is
the code of that character. -/
theorem byte0_singleton (c : Char) (h : c.toNat < 128) :
    byte0 (String.singleton c) = c.toNat := by
  have hd : (String.singleton c).data = [c] := rfl
  have hle : c.val ≤ 0x7f := by
    show c.val.toNat ≤ 127
    have : c.val.toNat = c.toNat := rfl
    omega
  have henc : String.utf8EncodeChar c = [c.val.toUInt8] := by
    unfold String.utf8EncodeChar
    simp only [hle, if_true]
  unfold byte0
  rw [hd]
  simp only [henc]
  show c.val.toNat % 256 = c.val.toNat
  have : c.val.toNat = c.toNat := rfl
  omega

/-! ## Facts about the scan loop of `bind` -/

theorem scanStep_m (mods : String → Option ModifierType) (specials : String → Option Int)
    (st : Scan) (v : String) :
    (scanStep mods specials st v).m = st.m ++ (modOf mods v).toList := by
  unfold scanStep modOf
  by_cases hl : len v > 1
  · simp only [hl, if_true]
    cases mods v <;> cases specials v <;> simp
  · simp [hl]

theorem scanStep_key (mods : String → Option ModifierType) (specials : String → Option Int)
    (st : Scan) (v : String) :
    (scanStep mods specials st v).key = lastAssigned st.key (keyOf specials v).toList := by
  unfold scanStep keyOf lastAssigned
  by_cases hl : len v > 1
  · simp only [hl, if_true]
    cases mods v <;> cases specials v <;> simp
  · simp [hl]

theorem foldl_scanStep_m (mods : String → Option ModifierType)
    (specials : String → Option Int) (l : List String) (st : Scan) :
    (l.foldl (scanStep mods specials) st).m = st.m ++ l.filterMap (modOf mods) := by
  induction l generalizing st with
  | nil => simp
  | cons v l ih =>
    rw [List.foldl_cons, ih, scanStep_m]
    cases h : modOf mods v <;> simp [List.filterMap_cons, h]

theorem foldl_scanStep_key (mods : String → Option ModifierType)
    (specials : String → Option Int) (l : List String) (st : Scan) :
    (l.foldl (scanStep mods specials) st).key =
      lastAssigned st.key (l.filterMap (keyOf specials)) := by
  induction l generalizing st with
  | nil => simp [lastAssigned]
  | cons v l ih =>
    rw [List.foldl_cons, ih, scanStep_key]
    cases h : keyOf specials v <;> simp [List.filterMap_cons, h, lastAssigned]

/-- The parse step of `bind` in closed form: the key code is the last one
assigned by a token, `0` when there is none, and the modifier set is `combine`
of the flags of the modifier tokens in order. -/
theorem parseWith_eq (mods : String → Option ModifierType) (specials : String → Option Int)
    (val : String) :
    parseWith mods specials val =
      (lastAssigned 0 ((Fields val).filterMap (keyOf specials)),
        combine ((Fields val).filterMap (modOf mods))) := by
  unfold parseWith
  simp only [foldl_scanStep_m, foldl_scanStep_key, List.nil_append]

/-- The `switch` of `bind` yields the OR of all collected flags when there are
at most three and `NoModifierMask` when there are more. -/
theorem combine_eq (m : List ModifierType) :
    combine m = if m.length ≤ 3 then orAll m else gdk.NoModifierMask := by
  match m with
  | [] => rfl
  | [a] => simp [combine, orAll]
  | [a, b] => simp [combine, orAll]
  | [a, b, c] => simp [combine, orAll, Nat.or_assoc]
  | a :: b :: c :: d :: l => simp [combine]

theorem orAll_perm {m1 m2 : List ModifierType} (h : m1.Perm m2) : orAll m1 = orAll m2 := by
  unfold orAll
  apply List.Perm.foldr_eq' h
  intro x _ y _ z
  show y ||| (x ||| z) = x ||| (y ||| z)
  rw [← Nat.or_assoc, ← Nat.or_assoc, Nat.or_comm y x]

theorem combine_perm {m1 m2 : List ModifierType} (h : m1.Perm m2) :
    combine m1 = combine m2 := by
  rw [combine_eq, combine_eq, h.length_eq, orAll_perm h]

/-! ## Facts about `execute` -/

theorem execute_of_primary {α σ : Type} (run : α → σ → Bool × σ) (st : State α)
    (key : Int) (modifier : ModifierType) (w : σ) (fn : α)
    (hs : st.isAi = false ∨ st.aibinds.get key modifier = none)
    (hp : st.binds.get key modifier = some fn) :
    execute run st key modifier w = callAction run fn w := by
  unfold execute executePrimary
  rcases hs with hs | hs
  · simp [hs, hp]
  · cases st.isAi <;> simp [hs, hp]

theorem execute_of_secondary {α σ : Type} (run : α → σ → Bool × σ) (st : State α)
    (key : Int) (modifier : ModifierType) (w : σ) (fn : α)
    (ha : st.isAi = true) (hs : st.aibinds.get key modifier = some fn) :
    execute run st key modifier w = callAction run fn w := by
  unfold execute
  simp [ha, hs]

theorem execute_of_none {α σ : Type} (run : α → σ → Bool × σ) (st : State α)
    (key : Int) (modifier : ModifierType) (w : σ)
    (hs : st.aibinds.get key modifier = none) (hp : st.binds.get key modifier = none) :
    execute run st key modifier w = { calls := [], ret := false, session := w } := by
  unfold execute executePrimary
  cases st.isAi <;> simp [hs, hp]

/-- The outcome of `execute` is determined by the flag and by the entries of
the two tables at exactly the dispatched pair. -/
theorem execute_congr {α σ : Type} (run : α → σ → Bool × σ) (st st2 : State α)
    (key : Int) (modifier : ModifierType) (w : σ)
    (hf : st2.isAi = st.isAi)
    (hp : st2.binds.get key modifier = st.binds.get key modifier)
    (hs : st2.aibinds.get key modifier = st.aibinds.get key modifier) :
    execute run st2 key modifier w = execute run st key modifier w := by
  unfold execute executePrimary
  rw [hf, hp, hs]

theorem execute_calls_mem {α σ : Type} (run : α → σ → Bool × σ) (st : State α)
    (key : Int) (modifier : ModifierType) (w : σ) (a : α)
    (ha : a ∈ (execute run st key modifier w).calls) :
    (st.isAi = true ∧ entryAt st.aibinds key modifier = some a) ∨
      entryAt st.binds key modifier = some a := by
  rw [execute_eq_dispatchRef] at ha
  unfold dispatchRef at ha
  cases hf : st.isAi with
  | false =>
    simp only [hf] at ha
    cases hp : entryAt st.binds key modifier with
    | none => simp [hp] at ha
    | some b =>
      simp [hp] at ha
      right; rw [ha]
  | true =>
    simp only [hf, if_true] at ha
    cases hs : entryAt st.aibinds key modifier with
    | some b =>
      simp [hs] at ha
      left; exact ⟨rfl, by rw [ha]⟩
    | none =>
      simp only [hs] at ha
      cases hp : entryAt st.binds key modifier with
      | none => simp [hp] at ha
      | some b =>
        simp [hp] at ha
        right; rw [ha]

/-! ## Binding and dispatch: the claims -/

/-- C1 (as stated, refuted): with the secondary context active and a secondary
entry at the parsed pair of "a", binding action `1` to "a" in the primary table
and dispatching that pair calls the secondary action `2`, not `1`. -/
theorem C1_counterexample :
    parse "a" = (97, 0) ∧
    (execute (fun (a : Nat) (w : Unit) => (a == 1, w))
      { binds := bind keybinds.empty "a" 1,
        aibinds := bind keybinds.empty "a" 2,
        isAi := true } 97 0 ()).calls = [2] ∧
    (execute (fun (a : Nat) (w : Unit) => (a == 1, w))
      { binds := keybinds.empty,
        aibinds := bind keybinds.empty "a" 1,
        isAi := false } 97 0 ()).calls = [] := by
  decide

/-- C1 (amended): let `(k, m)` be the pair the chord spec `s` parses to.  After
`bind` of `f` to `s` in the primary table, `execute(k, m)` calls `f` exactly
once, calls no other action and returns the result of `f`, provided the
secondary context is off or the secondary table has no entry at `(k, m)`.
After `bind` of `f` to `s` in the secondary table the same holds provided the
secondary context is on.  Prior table contents are arbitrary. -/
theorem C1_bind_then_execute {α σ : Type} (run : α → σ → Bool × σ) (st : State α)
    (s : String) (f : α) (w : σ) :
    ((st.isAi = false ∨ st.aibinds.get (parse s).1 (parse s).2 = none) →
      execute run { st with binds := bind st.binds s f } (parse s).1 (parse s).2 w =
        { calls := [f], ret := (run f w).1, session := (run f w).2 }) ∧
    (st.isAi = true →
      execute run { st with aibinds := bind st.aibinds s f } (parse s).1 (parse s).2 w =
        { calls := [f], ret := (run f w).1, session := (run f w).2 }) := by
  constructor
  · intro h
    exact execute_of_primary run _ _ _ w f h (get_bind_self st.binds s f)
  · intro h
    exact execute_of_secondary run _ _ _ w f h (get_bind_self st.aibinds s f)

/-- C1 (amended), at a concrete input: "ctrl a" bound in the primary table with
the secondary context off, and in the secondary table with the context on. -/
theorem C1_bind_then_execute_witness :
    execute (fun (a : Nat) (w : Nat) => (a == 1, w + a))
      { binds := bind keybinds.empty "ctrl a" 1, aibinds := keybinds.empty, isAi := false }
      (parse "ctrl a").1 (parse "ctrl a").2 10 =
        { calls := [1], ret := true, session := 11 } ∧
    execute (fun (a : Nat) (w : Nat) => (a == 1, w + a))
      { binds := keybinds.empty, aibinds := bind keybinds.empty "ctrl a" 1, isAi := true }
      (parse "ctrl a").1 (parse "ctrl a").2 10 =
        { calls := [1], ret := true, session := 11 } :=
  ⟨(C1_bind_then_execute (fun (a : Nat) (w : Nat) => (a == 1, w + a))
      { binds := keybinds.empty, aibinds := keybinds.empty, isAi := false }
      "ctrl a" 1 10).1 (Or.inl rfl),
   (C1_bind_then_execute (fun (a : Nat) (w : Nat) => (a == 1, w + a))
      { binds := keybinds.empty, aibinds := keybinds.empty, isAi := true }
      "ctrl a" 1 10).2 rfl⟩

/-- C2: `execute(k, m)` equals the reference dispatch: with the secondary
context active and a secondary entry at exactly `(k, m)` it calls that entry
and returns its result; otherwise, with a primary entry at exactly `(k, m)`,
it calls that entry and returns its result; otherwise it returns `false` and
calls nothing.  Only the exact pair matters: states that agree on the flag and
on the two entries at `(k, m)` give the same outcome, and every action called
is the entry of a table at exactly `(k, m)`. -/
theorem C2_execute_refines_dispatch {α σ : Type} (run : α → σ → Bool × σ) (st : State α)
    (key : Int) (modifier : ModifierType) (w : σ) :
    execute run st key modifier w =
        dispatchRef run st.binds st.aibinds st.isAi key modifier w ∧
    (∀ a, st.isAi = true → entryAt st.aibinds key modifier = some a →
        execute run st key modifier w =
          { calls := [a], ret := (run a w).1, session := (run a w).2 }) ∧
    (∀ a, (st.isAi = false ∨ entryAt st.aibinds key modifier = none) →
        entryAt st.binds key modifier = some a →
        execute run st key modifier w =
          { calls := [a], ret := (run a w).1, session := (run a w).2 }) ∧
    ((st.isAi = false ∨ entryAt st.aibinds key modifier = none) →
        entryAt st.binds key modifier = none →
        execute run st key modifier w = { calls := [], ret := false, session := w }) ∧
    (∀ st2 : State α, st2.isAi = st.isAi →
        st2.binds.get key modifier = st.binds.get key modifier →
        st2.aibinds.get key modifier = st.aibinds.get key modifier →
        execute run st2 key modifier w = execute run st key modifier w) ∧
    (∀ a ∈ (execute run st key modifier w).calls,
        (st.isAi = true ∧ entryAt st.aibinds key modifier = some a) ∨
          entryAt st.binds key modifier = some a) := by
  refine ⟨execute_eq_dispatchRef run st key modifier w, ?_, ?_, ?_,
    fun st2 hf hp hs => execute_congr run st st2 key modifier w hf hp hs,
    fun a ha => execute_calls_mem run st key modifier w a ha⟩
  · intro a hf hs
    rw [← get_eq_entryAt] at hs
    exact execute_of_secondary run st key modifier w a hf hs
  · intro a hs hp
    rw [← get_eq_entryAt] at hs hp
    exact execute_of_primary run st key modifier w a hs hp
  · intro hs hp
    rw [← get_eq_entryAt] at hs hp
    unfold execute executePrimary
    rcases hs with hs | hs
    · simp [hs, hp]
    · cases st.isAi <;> simp [hs, hp]

/-- C3: when `s1` and `s2` parse to the same pair, `bind` of `f1` to `s1`
followed by `bind` of `f2` to `s2` in the same table leaves `f2` at that pair
(so not `f1`, when the two differ) and leaves every other pair as it was. -/
theorem C3_rebind_overrides {α : Type} (t : keybinds α) (s1 s2 : String) (f1 f2 : α)
    (h : parse s1 = parse s2) :
    (bind (bind t s1 f1) s2 f2).get (parse s1).1 (parse s1).2 = some f2 ∧
    (f1 ≠ f2 → (bind (bind t s1 f1) s2 f2).get (parse s1).1 (parse s1).2 ≠ some f1) ∧
    (∀ (k : Int) (md : ModifierType), ¬ (k = (parse s1).1 ∧ md = (parse s1).2) →
      (bind (bind t s1 f1) s2 f2).get k md = t.get k md) := by
  have h2 : (bind (bind t s1 f1) s2 f2).get (parse s1).1 (parse s1).2 = some f2 := by
    rw [h]; exact get_bind_self _ s2 f2
  refine ⟨h2, ?_, ?_⟩
  · intro hne heq
    rw [h2] at heq
    exact hne (Option.some.inj heq).symm
  · intro k md hkm
    rw [get_bind, get_bind, ← h, if_neg hkm, if_neg hkm]

/-- C3 at a concrete input: "ctrl a" and "lctrl a" parse to the same pair. -/
theorem C3_rebind_overrides_witness :
    parse "ctrl a" = parse "lctrl a" ∧
    (bind (bind (keybinds.empty : keybinds Nat) "ctrl a" 1) "lctrl a" 2).get
      (parse "ctrl a").1 (parse "ctrl a").2 = some 2 :=
  ⟨by decide,
   (C3_rebind_overrides (keybinds.empty : keybinds Nat) "ctrl a" "lctrl a" 1 2
      (by decide)).1⟩

/-! ## The vocabularies and chord validity -/

/-- Every name of the `modifiers` table is longer than one byte, so the table
is only ever consulted successfully inside the `len(v) > 1` branch. -/
theorem modifiers_len (v : String) (h : (modifiers v).isSome = true) : len v > 1 := by
  unfold modifiers at h
  split_ifs at h with h1 h2 h3 h4 h5 h6 h7 h8 h9 <;>
    first
    | (subst_vars; decide)
    | simp at h

/-- Every flag of the `modifiers` table is a non-zero mask. -/
theorem modifiers_ne_zero (v : String) (x : ModifierType) (h : modifiers v = some x) :
    x ≠ 0 := by
  unfold modifiers at h
  split_ifs at h <;> cases h <;> decide

theorem modOf_modifiers : modOf modifiers = modifiers := by
  funext v
  unfold modOf
  by_cases hl : len v > 1
  · simp [hl]
  · rw [if_neg hl]
    cases hm : modifiers v with
    | none => rfl
    | some x => exact absurd (modifiers_len v (by simp [hm])) hl

theorem orAll_ne_zero (m : List ModifierType) (hm : ∀ x ∈ m, x ≠ 0) (hne : m ≠ []) :
    orAll m ≠ 0 := by
  match m, hne with
  | a :: l, _ =>
    intro h
    have ha : a ≠ 0 := hm a (List.mem_cons_self a l)
    have h1 : a ||| orAll l = 0 := h
    have h2 : a = 0 := by
      apply Nat.eq_of_testBit_eq
      intro i
      have := congrArg (fun n => n.testBit i) h1
      simp only [Nat.testBit_or, Nat.zero_testBit, Bool.or_eq_false_iff] at this
      simp [this.1]
    exact ha h2

theorem modifierFlags_ne_zero (s : String) : ∀ x ∈ modifierFlags s, x ≠ 0 := by
  intro x hx
  unfold modifierFlags at hx
  rw [List.mem_filterMap] at hx
  obtain ⟨v, _, hv⟩ := hx
  exact modifiers_ne_zero v x hv

theorem parse_snd (s : String) :
    (parse s).2 =
      if 4 ≤ (modifierFlags s).length then gdk.NoModifierMask else orAll (modifierFlags s) := by
  unfold parse
  rw [parseWith_eq, modOf_modifiers, combine_eq]
  show (if (modifierFlags s).length ≤ 3 then orAll (modifierFlags s) else gdk.NoModifierMask) = _
  by_cases h : (modifierFlags s).length ≤ 3
  · rw [if_pos h, if_neg (by omega)]
  · rw [if_neg h, if_pos (by omega)]

theorem keyOf_isSome (v : String) : (keyOf specialKeys v).isSome = isKeyToken v := by
  unfold keyOf isKeyToken
  by_cases hl : len v > 1
  · have : ¬ len v ≤ 1 := by omega
    simp [hl, this]
  · have : len v ≤ 1 := by omega
    simp [hl, this]

/-- Token-order invariance of the parse step, needing only that at most one
token assigns the key code. -/
theorem parse_perm_of_one_key (s1 s2 : String) (hk : (Fields s1).countP isKeyToken ≤ 1)
    (hp : (Fields s1).Perm (Fields s2)) : parse s1 = parse s2 := by
  unfold parse
  rw [parseWith_eq, parseWith_eq]
  have hm : combine ((Fields s1).filterMap (modOf modifiers)) =
      combine ((Fields s2).filterMap (modOf modifiers)) :=
    combine_perm (hp.filterMap _)
  have hkp : ((Fields s1).filterMap (keyOf specialKeys)).Perm
      ((Fields s2).filterMap (keyOf specialKeys)) := hp.filterMap _
  have hlen : ((Fields s1).filterMap (keyOf specialKeys)).length ≤ 1 := by
    rw [List.length_filterMap_eq_countP]
    have : (fun a => (keyOf specialKeys a).isSome) = isKeyToken := funext keyOf_isSome
    rw [this]
    exact hk
  have hkeq : (Fields s1).filterMap (keyOf specialKeys) =
      (Fields s2).filterMap (keyOf specialKeys) := by
    match hl : (Fields s1).filterMap (keyOf specialKeys), hlen with
    | [], _ =>
      rw [hl] at hkp
      exact (List.nil_perm.mp hkp).symm
    | [a], _ =>
      rw [hl] at hkp
      exact List.singleton_perm.mp hkp
  rw [hm, hkeq]

/-! ## The parse step: the claims -/

/-- C4: two valid chord specs whose token lists are permutations of each other
parse to the same (key code, modifier set) pair. -/
theorem C4_parse_token_order (s1 s2 : String) (h1 : ValidChord s1) (_h2 : ValidChord s2)
    (hp : (Fields s1).Perm (Fields s2)) : parse s1 = parse s2 :=
  parse_perm_of_one_key s1 s2 h1.2.1 hp

/-- C4 at the specs "ctrl shift enter" and "shift ctrl enter". -/
theorem C4_parse_token_order_witness :
    ValidChord "ctrl shift enter" ∧ ValidChord "shift ctrl enter" ∧
    (Fields "ctrl shift enter").Perm (Fields "shift ctrl enter") ∧
    parse "ctrl shift enter" = parse "shift ctrl enter" ∧
    parse "ctrl shift enter" = (gdk.KEY_Return, gdk.ControlMask ||| gdk.ShiftMask) :=
  ⟨by decide, by decide, by decide,
   C4_parse_token_order "ctrl shift enter" "shift ctrl enter" (by decide) (by decide)
     (by decide),
   by decide⟩

/-- C5 (as stated, refuted): the one-character token U+00E9 is two bytes long,
so `bind` looks it up in the tables, finds nothing and leaves the key code at
`0` instead of the character code 233; `validate` reports the same token as an
invalid keybind. -/
theorem C5_counterexample :
    (String.singleton (Char.ofNat 233)).length = 1 ∧
    Fields (String.singleton (Char.ofNat 233)) = [String.singleton (Char.ofNat 233)] ∧
    len (String.singleton (Char.ofNat 233)) = 2 ∧
    (Char.ofNat 233).toNat = 233 ∧
    parse (String.singleton (Char.ofNat 233)) = (0, gdk.NoModifierMask) ∧
    (validate (String.singleton (Char.ofNat 233))).length = 1 := by
  decide

/-- C5 (amended): for every token `c` of one character whose code is below 128
(one byte in UTF-8; a token is never white space), parsing the chord spec `c`
yields the key code `ordinal(c)` and the empty modifier set, whatever the
modifier and special-key tables contain: `c` is not looked up in them. -/
theorem C5_single_byte_literal (mods : String → Option ModifierType)
    (specials : String → Option Int) (c : Char) (hs : isSpace c = false)
    (hc : c.toNat < 128) :
    parseWith mods specials (String.singleton c) = ((c.toNat : Int), gdk.NoModifierMask) ∧
    parse (String.singleton c) = ((c.toNat : Int), gdk.NoModifierMask) := by
  have hl : ¬ len (String.singleton c) > 1 := by
    rw [len_singleton, (utf8Size_eq_one_iff c).mpr hc]
    omega
  have key : ∀ (md : String → Option ModifierType) (sp : String → Option Int),
      parseWith md sp (String.singleton c) = ((c.toNat : Int), gdk.NoModifierMask) := by
    intro md sp
    unfold parseWith
    rw [Fields_singleton c hs]
    simp only [List.foldl_cons, List.foldl_nil, scanStep, if_neg hl,
      byte0_singleton c hc, combine]
  exact ⟨key mods specials, key modifiers specialKeys⟩

/-- C5 (amended) at the token "a", with tables that do contain the name "a". -/
theorem C5_single_byte_literal_witness :
    parseWith (fun _ => some gdk.AltMask) (fun _ => some gdk.KEY_Tab) "a" = (97, 0) ∧
    parse "a" = (97, 0) :=
  C5_single_byte_literal (fun _ => some gdk.AltMask) (fun _ => some gdk.KEY_Tab)
    (Char.ofNat 97) (by decide) (by decide)

/-- C10: `bind` stores the action at the parsed key code under the modifier
set it computed; that set is `NoModifierMask` when the spec has four or more
modifier tokens and the bitwise OR of the flags of its modifier tokens when it
has zero to three.  With four or more, the OR of the flags is a different,
non-empty set, and the entry under it is left as it was. -/
theorem C10_bind_modifier_set {α : Type} (t : keybinds α) (s : String) (f : α) :
    (bind t s f).get (parse s).1 (parse s).2 = some f ∧
    (parse s).2 =
      (if 4 ≤ (modifierFlags s).length then gdk.NoModifierMask
       else orAll (modifierFlags s)) ∧
    (4 ≤ (modifierFlags s).length →
      (bind t s f).get (parse s).1 gdk.NoModifierMask = some f ∧
      orAll (modifierFlags s) ≠ gdk.NoModifierMask ∧
      (bind t s f).get (parse s).1 (orAll (modifierFlags s)) =
        t.get (parse s).1 (orAll (modifierFlags s))) ∧
    ((modifierFlags s).length ≤ 3 →
      (bind t s f).get (parse s).1 (orAll (modifierFlags s)) = some f) := by
  have hsnd := parse_snd s
  refine ⟨get_bind_self t s f, hsnd, ?_, ?_⟩
  · intro h4
    rw [if_pos h4] at hsnd
    have hne : orAll (modifierFlags s) ≠ gdk.NoModifierMask := by
      apply orAll_ne_zero _ (modifierFlags_ne_zero s)
      intro hnil
      rw [hnil] at h4
      simp at h4
    refine ⟨?_, hne, ?_⟩
    · rw [← hsnd]; exact get_bind_self t s f
    · rw [get_bind, if_neg]
      rw [hsnd]
      exact fun hc => hne hc.2
  · intro h3
    rw [if_neg (by omega)] at hsnd
    rw [← hsnd]; exact get_bind_self t s f

/-- C10 at concrete inputs: four modifier tokens store under the empty set and
three store under the OR of their flags. -/
theorem C10_bind_modifier_set_witness :
    modifierFlags "ctrl alt shift lctrl a" = [4, 8, 1, 4] ∧
    (bind (keybinds.empty : keybinds Nat) "ctrl alt shift lctrl a" 1).get
      (parse "ctrl alt shift lctrl a").1 gdk.NoModifierMask = some 1 ∧
    (bind (keybinds.empty : keybinds Nat) "ctrl alt shift a" 1).get
      (parse "ctrl alt shift a").1 (orAll (modifierFlags "ctrl alt shift a")) = some 1 :=
  ⟨by decide,
   ((C10_bind_modifier_set (keybinds.empty : keybinds Nat) "ctrl alt shift lctrl a" 1).2.2.1
      (by decide)).1,
   (C10_bind_modifier_set (keybinds.empty : keybinds Nat) "ctrl alt shift a" 1).2.2.2
      (by decide)⟩

/-! ## Validation: the claims -/

theorem validate_foldl (b : String) (l : List String) (log : List LogRecord) :
    l.foldl
      (fun log v =>
        if len v > 1 then
          if (modifiers v).isNone && (specialKeys v).isNone then
            log ++ [slogError "invalid keybind" [b, "key", v]]
          else log
        else log)
      log =
    log ++ (l.filter isUnknownToken).map
      (fun v => slogError "invalid keybind" [b, "key", v]) := by
  induction l generalizing log with
  | nil => simp
  | cons v l ih =>
    rw [List.foldl_cons, ih]
    by_cases hl : len v > 1
    · cases hm : modifiers v <;> cases hsp : specialKeys v <;>
        simp [isUnknownToken, hl, hm, hsp, List.filter_cons]
    · simp [isUnknownToken, hl, List.filter_cons]

/-- The log of `validate` in closed form: one record per unknown token, in the
order of the tokens. -/
theorem validate_eq (b : String) :
    validate b = ((Fields b).filter isUnknownToken).map
      (fun v => slogError "invalid keybind" [b, "key", v]) := by
  unfold validate
  rw [validate_foldl]
  simp

theorem validate_ne_nil_iff (b : String) :
    validate b ≠ [] ↔
      ∃ v ∈ Fields b, len v > 1 ∧ modifiers v = none ∧ specialKeys v = none := by
  rw [validate_eq]
  simp only [ne_eq, List.map_eq_nil_iff, List.filter_eq_nil_iff, not_forall,
    Bool.not_eq_true, Bool.not_eq_false, exists_prop]
  constructor
  · rintro ⟨v, hv, hu⟩
    simp only [isUnknownToken, Bool.and_eq_true, decide_eq_true_eq,
      Option.isNone_iff_eq_none] at hu
    exact ⟨v, hv, hu.1.1, hu.1.2, hu.2⟩
  · rintro ⟨v, hv, h1, h2, h3⟩
    refine ⟨v, hv, ?_⟩
    simp [isUnknownToken, h1, h2, h3]

/-- C8 (as stated, refuted): the chord spec made of the single character U+00E9
has one token, of length one in characters, so it has no token of length
greater than one; `validate` reports that token all the same, because its
UTF-8 encoding is two bytes long. -/
theorem C8_counterexample :
    Fields (String.singleton (Char.ofNat 233)) = [String.singleton (Char.ofNat 233)] ∧
    (∀ v ∈ Fields (String.singleton (Char.ofNat 233)), v.length ≤ 1) ∧
    len (String.singleton (Char.ofNat 233)) = 2 ∧
    validate (String.singleton (Char.ofNat 233)) =
      [slogError "invalid keybind"
        [String.singleton (Char.ofNat 233), "key", String.singleton (Char.ofNat 233)]] := by
  decide

/-- C8 (amended): `validate` reports an invalid keybind exactly when the spec
has a token longer than one byte (Go `len(v) > 1`, the length of the UTF-8
encoding) that is in neither vocabulary, and what it reports is exactly those
tokens, one record each, in order; it reports `foo` for "ctrl shift foo" and
nothing for "ctrl shift enter". -/
theorem C8_validate_reports_unknown_tokens (b : String) :
    (validate b ≠ [] ↔
      ∃ v ∈ Fields b, len v > 1 ∧ modifiers v = none ∧ specialKeys v = none) ∧
    validate b =
      ((Fields b).filter
        (fun v => decide (len v > 1) && (modifiers v).isNone && (specialKeys v).isNone)).map
        (fun v => slogError "invalid keybind" [b, "key", v]) ∧
    validate "ctrl shift foo" = [slogError "invalid keybind" ["ctrl shift foo", "key", "foo"]] ∧
    validate "ctrl shift enter" = [] :=
  ⟨validate_ne_nil_iff b, validate_eq b, by decide, by decide⟩

/-- C7 (as stated, refuted): "ctrl alt shift lctrl a" has four modifier tokens
and `validate` reports nothing for it. -/
theorem C7_counterexample :
    (Fields "ctrl alt shift lctrl a").countP isModifierToken = 4 ∧
    validate "ctrl alt shift lctrl a" = [] := by
  decide

/-- C7 (amended): `validate` does not count modifier tokens.  A chord spec with
more than three modifier tokens is reported as invalid exactly when it has a
token longer than one byte that is in neither vocabulary. -/
theorem C7_validate_ignores_modifier_count (b : String)
    (_h : 3 < (Fields b).countP isModifierToken) :
    validate b ≠ [] ↔
      ∃ v ∈ Fields b, len v > 1 ∧ modifiers v = none ∧ specialKeys v = none :=
  validate_ne_nil_iff b

/-- C7 (amended) at "ctrl alt shift lctrl foo", which is reported for `foo`. -/
theorem C7_validate_ignores_modifier_count_witness :
    3 < (Fields "ctrl alt shift lctrl foo").countP isModifierToken ∧
    (validate "ctrl alt shift lctrl foo" ≠ [] ↔
      ∃ v ∈ Fields "ctrl alt shift lctrl foo",
        len v > 1 ∧ modifiers v = none ∧ specialKeys v = none) :=
  ⟨by decide, C7_validate_ignores_modifier_count "ctrl alt shift lctrl foo" (by decide)⟩

/-! ## Setup: validate, then bind -/

/-- C6 (as stated, refuted): "foo a" is reported as invalid, and the
validate-then-bind step on an empty table still binds the action, at the key
`a` without modifiers; dispatching that key calls it and returns its result.
The same happens in `parseKeybinds` when the configured chord of the close
action is "foo a". -/
theorem C6_counterexample :
    validate "foo a" = [slogError "invalid keybind" ["foo a", "key", "foo"]] ∧
    (validateBind ([], (keybinds.empty : keybinds Nat)) "foo a" 1).2.get 97 0 = some 1 ∧
    execute (fun (_ : Nat) (w : Nat) => (true, w + 1))
      { binds := (validateBind ([], (keybinds.empty : keybinds Nat)) "foo a" 1).2,
        aibinds := keybinds.empty, isAi := false } 97 0 0 =
      { calls := [1], ret := true, session := 1 } ∧
    (parseKeybinds { exampleKeys with Close := "foo a" }).map
        (fun g => (g.log, g.binds.get 97 0)) =
      some ([slogError "invalid keybind" ["foo a", "key", "foo"]],
        some Action.quitKeybind) := by
  decide

/-- C6 (amended): for a chord spec that `validate` reports as invalid, the
validate-then-bind step logs the report and binds the action all the same, at
the pair the parse step yields (unknown tokens are skipped).  Starting from an
empty table, the table afterwards holds exactly that one entry: dispatch of
that pair calls the action once and returns its result, and dispatch of any
other pair returns false and calls nothing. -/
theorem C6_invalid_spec_is_still_bound {α σ : Type} (run : α → σ → Bool × σ)
    (log : List LogRecord) (s : String) (f : α) (hinv : validate s ≠ []) :
    (validateBind (log, keybinds.empty) s f).1 = log ++ validate s ∧
    (validateBind (log, keybinds.empty) s f).1 ≠ log ∧
    (∀ (k : Int) (md : ModifierType),
      (validateBind (log, keybinds.empty) s f).2.get k md =
        if k = (parse s).1 ∧ md = (parse s).2 then some f else none) ∧
    (∀ (isAi : Bool) (w : σ),
      execute run
        { binds := (validateBind (log, keybinds.empty) s f).2,
          aibinds := keybinds.empty, isAi := isAi } (parse s).1 (parse s).2 w =
        { calls := [f], ret := (run f w).1, session := (run f w).2 }) ∧
    (∀ (isAi : Bool) (k : Int) (md : ModifierType) (w : σ),
      ¬ (k = (parse s).1 ∧ md = (parse s).2) →
      execute run
        { binds := (validateBind (log, keybinds.empty) s f).2,
          aibinds := keybinds.empty, isAi := isAi } k md w =
        { calls := [], ret := false, session := w }) := by
  have hget : ∀ (k : Int) (md : ModifierType),
      (validateBind (log, keybinds.empty) s f).2.get k md =
        if k = (parse s).1 ∧ md = (parse s).2 then some f else none := by
    intro k md
    show (bind keybinds.empty s f).get k md = _
    rw [get_bind, get_empty]
  refine ⟨rfl, ?_, hget, ?_, ?_⟩
  · show log ++ validate s ≠ log
    intro h
    exact hinv (List.append_right_eq_self.mp h)
  · intro isAi w
    apply execute_of_primary
    · right; exact get_empty _ _
    · rw [hget]; simp
  · intro isAi k md w hne
    apply execute_of_none
    · exact get_empty _ _
    · show (validateBind (log, keybinds.empty) s f).2.get k md = none
      rw [hget, if_neg hne]

/-- C6 (amended) at the spec "ctrl shift foo": reported, and bound at key code
`0` under Control and Shift. -/
theorem C6_invalid_spec_is_still_bound_witness :
    validate "ctrl shift foo" ≠ [] ∧
    parse "ctrl shift foo" = (0, gdk.ControlMask ||| gdk.ShiftMask) ∧
    (validateBind ([], (keybinds.empty : keybinds Nat)) "ctrl shift foo" 1).2.get
      (parse "ctrl shift foo").1 (parse "ctrl shift foo").2 = some 1 :=
  ⟨by decide, by decide,
   by
    have h := (C6_invalid_spec_is_still_bound (fun (_ : Nat) (w : Unit) => (true, w)) []
      "ctrl shift foo" 1 (by decide)).2.2.1 (parse "ctrl shift foo").1
      (parse "ctrl shift foo").2
    rw [h]
    simp⟩

/-! ## The exact-match toggle -/

/-- C9 (as stated, refuted): on the text of two single quotes the first toggle
removes one quote, the second removes the other, and the text ends up empty. -/
theorem C9_counterexample :
    (toggleExactMatch
      (toggleExactMatch { text := String.mk [Char.ofNat 39, Char.ofNat 39],
                          position := 0 }).1).1.text = "" ∧
    (toggleExactMatch { text := String.mk [Char.ofNat 39, Char.ofNat 39],
                        position := 0 }).1.text = String.mk [Char.ofNat 39] := by
  decide

/-- C9 (amended): for every query text that does not begin with two single
quotes, applying `toggleExactMatch` twice restores the text, where one
application removes one leading single quote if there is one and prepends one
otherwise; each application returns true. -/
theorem C9_toggle_twice_restores (input : Input)
    (h : startsWithTwoQuotes input.text = false) :
    (toggleExactMatch (toggleExactMatch input).1).1.text = input.text ∧
    (toggleExactMatch input).2 = true ∧
    (toggleExactMatch (toggleExactMatch input).1).2 = true ∧
    (toggleExactMatch input).1.text =
      (if hasQuotePrefix input.text then String.mk (input.text.data.drop 1)
       else String.mk (Char.ofNat 39 :: input.text.data)) := by
  obtain ⟨⟨data⟩, pos⟩ := input
  refine ⟨?_, rfl, rfl, ?_⟩
  · match data, h with
    | [], _ => rfl
    | [c], _ =>
      by_cases hc : c = Char.ofNat 39
      · subst hc; rfl
      · simp [toggleExactMatch, hasQuotePrefix, trimQuotePrefix, hc]
    | a :: b :: rest, h =>
      by_cases ha : a = Char.ofNat 39
      · have hb : b ≠ Char.ofNat 39 := by
          intro hb
          simp [startsWithTwoQuotes, ha, hb] at h
        simp [toggleExactMatch, hasQuotePrefix, trimQuotePrefix, ha, hb]
      · simp [toggleExactMatch, hasQuotePrefix, trimQuotePrefix, ha]
  · match data with
    | [] => rfl
    | c :: rest =>
      by_cases hc : c = Char.ofNat 39
      · simp [toggleExactMatch, hasQuotePrefix, trimQuotePrefix, hc]
      · simp [toggleExactMatch, hasQuotePrefix, trimQuotePrefix, hc]

/-- C9 (amended) on the scenario of the specification: "foo", then the quoted
text, then "foo" again. -/
theorem C9_toggle_twice_restores_witness :
    (toggleExactMatch { text := "foo", position := 0 }).1.text =
      String.mk (Char.ofNat 39 :: "foo".data) ∧
    (toggleExactMatch (toggleExactMatch { text := "foo", position := 0 }).1).1.text = "foo" :=
  ⟨by decide, (C9_toggle_twice_restores { text := "foo", position := 0 } (by decide)).1⟩

end Walker
